import Mathlib

/-!
Shallow embedding of the static-site build pipeline of `main.js`
(the build orchestrator of the blog generator).

External libraries (gray-matter, marked, nunjucks, html-minifier,
postcss, terser, shiki) are black-box services per the design document;
they appear as fields of the `Externals` structure.  Everything else
(slug computation, metadata merging, the per-item loops, the stage
sequencing of `main`, the asset dispatch by extension) is translated
directly from the source.

File system effects are recorded as an explicit `Event` trace: each run
of a pipeline function returns the list of write/transform events it
performed, in order, together with its result.  JavaScript `undefined`
returns are modelled with `Option`; thrown exceptions with `Except`.
-/

namespace SBG

/-- Errors that can propagate through the pipeline.  `parseErr` models a
gray-matter front-matter parse failure, `templateErr` a nunjucks render
failure, `typeErr` a JavaScript TypeError (e.g. reading `.length` of
`undefined`). -/
inductive Err where
  | parseErr : String → Err
  | templateErr : String → Err
  | typeErr : String → Err
  deriving Repr, DecidableEq

/-- JavaScript values stored in a metadata object: strings, timestamps
(`Date` objects from `fs.stat`, modelled as `Nat`), arrays and nested
objects. -/
inductive Value where
  | str : String → Value
  | time : Nat → Value
  | arr : List Value → Value
  | obj : List (String × Value) → Value
  deriving Repr

/-- A JavaScript object as an association list in insertion order; keys
are unique because objects are only built by `setKey`. -/
abbrev Obj := List (String × Value)

/-- Property assignment on a JavaScript object: an existing key keeps its
position and gets the new value, a fresh key is appended (the semantics
of a later entry in an object literal such as
`\x7b ...data, createdAt, updatedAt, content, url \x7d`). -/
def setKey : Obj → String → Value → Obj
  | [], k, v => [(k, v)]
  | (k', v') :: rest, k, v =>
    if k' == k then (k, v) :: rest else (k', v') :: setKey rest k v

/-- Property lookup on a JavaScript object. -/
def getKey (o : Obj) (k : String) : Option Value :=
  (o.find? (fun p => p.1 == k)).map (fun p => p.2)

/-- Result of `terser.minify` (terser v4 API): on success `code` is the
minified source and `error` is absent; on a syntax error `code` is
absent and `error` carries the syntax error.  `terser.minify` does not
throw. -/
structure TerserResult where
  code : Option String
  error : Option String

/-- The black-box external services used by `main.js`.
`matter` is gray-matter (splits front matter from body, may throw a
parse error); `markedParse` is `marked.parse` after the highlighter has
been configured; `renderString` is `njkRenderer.renderString` (may throw
a template error); `patch` is `patchTemplate` (reset-CSS injection into
the head plus `html-minifier`); `cssTransform` is the postcss chain
(tailwind, autoprefixer, cssnano, purgecss over the written dist HTML);
`terserMinify` is `terser.minify`. -/
structure Externals where
  matter : String → Except Err (String × Obj)
  markedParse : String → String
  renderString : String → Obj → Except Err String
  patch : String → String
  cssTransform : String → String
  terserMinify : String → TerserResult

/-- A file of the `posts/` directory: name as listed by `readdir`, raw
text, and the `birthtime`/`mtime` stats. -/
structure PostFile where
  name : String
  text : String
  birthtime : Nat
  mtime : Nat
  deriving Repr

/-- A file of the `pages/` directory. -/
structure PageFile where
  name : String
  text : String
  deriving Repr

/-- An asset file as listed by `readdirRecursive('assets')`: a relative
path such as `assets/app.css` plus its contents. -/
structure AssetFile where
  path : String
  text : String
  deriving Repr

/-- The optional `config.js` default export; only the names of the
registered nunjucks filters matter for the build trace. -/
structure Config where
  filters : List String
  deriving Repr

/-- The input file tree of one build: the `posts/` listing (in directory
order), the `pages/` listing, the recursive `assets/` listing, the text
of `layouts/post.html`, and the optional config. -/
structure FS where
  postsDir : List PostFile
  pagesDir : List PageFile
  assets : List AssetFile
  postLayout : String
  config : Option Config

/-- Case-insensitive character comparison, for the `i` regex flag. -/
def charsEqCI (a b : Char) : Bool := a.toLower == b.toLower

/-- One step of `String.replace` with the regex `/.md/i` and an empty
replacement: scan left to right for the first position where any
non-newline character is followed by `m` and `d` (case-insensitive) and
delete those three characters.  Note the unescaped dot: the pattern is
NOT the literal extension `.md`. -/
def dropDotMd : List Char → List Char
  | c1 :: c2 :: c3 :: rest =>
    if c1 != '\n' && charsEqCI c2 'm' && charsEqCI c3 'd' then rest
    else c1 :: dropDotMd (c2 :: c3 :: rest)
  | other => other

/-- The post slug computation `postPath.replace(/.md/i, '')`. -/
def stripMdSlug (s : String) : String := String.mk (dropDotMd s.data)

/-- Case-insensitive literal match at the start of the input, returning
the remainder on success. -/
def matchCI : List Char → List Char → Option (List Char)
  | [], cs => some cs
  | _, [] => none
  | p :: ps, c :: cs => if charsEqCI p c then matchCI ps cs else none

/-- Regex `.` (any character except newline) at the start of the input. -/
def matchAnyChar : List Char → Option (List Char)
  | [] => none
  | c :: cs => if c != '\n' then some cs else none

/-- Match the regex `(index)?.html` (flag `i`) at the start of the
input: greedily try the optional `index` group first, backtracking to
the empty group if the tail fails. -/
def matchIndexHtml (cs : List Char) : Option (List Char) :=
  match matchCI "index".data cs with
  | some rest =>
    match (matchAnyChar rest).bind (matchCI "html".data) with
    | some r => some r
    | none => (matchAnyChar cs).bind (matchCI "html".data)
  | none => (matchAnyChar cs).bind (matchCI "html".data)

/-- One step of `String.replace` with `/(index)?.html/i` and empty
replacement: delete the leftmost match. -/
def dropIndexHtml : List Char → List Char
  | [] => []
  | c :: rest =>
    match matchIndexHtml (c :: rest) with
    | some rem => rem
    | none => c :: dropIndexHtml rest

/-- The page slug computation `pagePath.replace(/(index)?.html/i, '')`. -/
def stripPageSlug (s : String) : String := String.mk (dropIndexHtml s.data)

/-- JavaScript `name.startsWith('.')` for the dot-file checks of the
loops: true exactly when the first character is a dot. -/
def startsWithDot (s : String) : Bool :=
  match s.data with
  | [] => false
  | c :: _ => c == '.'

/-- The maximal slash-free runs of a path (accumulator holds the
current run reversed): the nonempty components between slashes. -/
def splitSlashAux : List Char → List Char → List String
  | [], acc => if acc.isEmpty then [] else [String.mk acc.reverse]
  | c :: rest, acc =>
    if c == '/' then
      if acc.isEmpty then splitSlashAux rest []
      else String.mk acc.reverse :: splitSlashAux rest []
    else splitSlashAux rest (c :: acc)

/-- The nonempty slash-separated components of a path segment; this is
`p.split('/')` with empty components dropped, which also absorbs the
leading-slash strip of `resolveDist`. -/
def pathComps (p : String) : List String := splitSlashAux p.data []

/-- `resolveDist(...paths)`: each segment loses one leading slash, then
`path.resolve` joins the segments under `dist`, dropping empty
components.  Reachable inputs contain no `.` or `..` components, so no
further normalization is needed. -/
def resolveDist (paths : List String) : String :=
  String.intercalate "/" ("dist" :: (paths.map pathComps).flatten)

/-- The suffix of `cs` after the last occurrence of `sep` (the whole
list when `sep` does not occur). -/
def afterLastChar (sep : Char) (cs : List Char) : List Char :=
  (cs.reverse.takeWhile (fun c => c != sep)).reverse

/-- Node `path.extname`: the suffix of the basename from its last dot,
empty when the basename has no dot past its first character. -/
def extname (p : String) : String :=
  match afterLastChar '/' p.data with
  | [] => ""
  | _ :: btail =>
    if btail.contains '.' then String.mk ('.' :: afterLastChar '.' btail)
    else ""

/-- Whether `needle` occurs at the start of `hay`. -/
def hasPre : List Char → List Char → Bool
  | [], _ => true
  | _ :: _, [] => false
  | a :: as, b :: bs => a == b && hasPre as bs

/-- Whether `needle` occurs anywhere inside `hay` (JavaScript
`String.includes`). -/
def subOf : List Char → List Char → Bool
  | needle, [] => needle.isEmpty
  | needle, c :: rest => hasPre needle (c :: rest) || subOf needle rest

/-- `file.includes('.gitkeep')`. -/
def containsGitkeep (s : String) : Bool := subOf ".gitkeep".data s.data

/-- One recorded file-system effect of a build run. -/
inductive Event where
  /-- removal of a pre-existing `dist` tree -/
  | cleanDist : Event
  /-- resolution of the optional `config.js` -/
  | loadConfig : Event
  /-- `njkRenderer.addFilter(name, handler)` -/
  | regFilter : String → Event
  /-- `mkdirp(distDir)` -/
  | mkdirDist : Event
  /-- `shiki.getHighlighter` plus `marked.setOptions` -/
  | initHighlighter : Event
  /-- awaited `outputFile` of a rendered, patched post or page document -/
  | writeFile : String → String → Event
  /-- CSS transform of one asset through the postcss chain (purgecss
  reads the already-written dist HTML here) -/
  | processCss : String → Event
  /-- JS transform of one asset through `processJSFiles` -/
  | processJs : String → Event
  /-- the un-awaited `outputFile(resolveDist(filePath), content)`;
  a `none` content means `content` was `undefined` and the write
  rejects without surfacing an error to the build -/
  | writeAsset : String → Option String → Event
  /-- verbatim `copy` of an untransformed asset -/
  | copyAsset : String → Event
  deriving Repr, DecidableEq

/-- A rendered document: output path plus patched (minified) contents. -/
structure PostOutput where
  path : String
  contents : String
  deriving Repr

/-- `processMarkdown`: read the file text, split the front matter with
gray-matter, render the body with marked. -/
def processMarkdown (E : Externals) (text : String) : Except Err (String × Obj) :=
  (E.matter text).map (fun pr => (E.markedParse pr.1, pr.2))

/-- The metadata object of one post,
`\x7b ...data, createdAt, updatedAt, content, url \x7d`:
front matter first, then the four computed keys, each assignment
overriding any earlier binding of the same key. -/
def mkMetadata (data : Obj) (createdAt updatedAt : Nat) (content url : String) : Obj :=
  setKey (setKey (setKey (setKey data "createdAt" (Value.time createdAt))
    "updatedAt" (Value.time updatedAt)) "content" (Value.str content)) "url" (Value.str url)

/-- The body of one iteration of the `generatePosts` loop for a
non-dot file: compute the url, parse and render the content, build the
metadata, render the layout, patch the result.  Either step of
`processMarkdown` or `renderString` may throw. -/
def buildPost (E : Externals) (layout : String) (p : PostFile) :
    Except Err (PostOutput × Obj) :=
  match processMarkdown E p.text with
  | Except.error e => Except.error e
  | Except.ok (content, data) =>
    match E.renderString layout
        (mkMetadata data p.birthtime p.mtime content ("/blog/" ++ stripMdSlug p.name)) with
    | Except.error e => Except.error e
    | Except.ok compiled =>
      Except.ok
        (⟨resolveDist ["/blog/" ++ stripMdSlug p.name, "index.html"], E.patch compiled⟩,
         mkMetadata data p.birthtime p.mtime content ("/blog/" ++ stripMdSlug p.name))

/-- The `for (const postPath of postsPath)` loop of `generatePosts`:
dot files are skipped, each successful post appends its write event and
pushes its metadata, and an exception aborts the remainder of the loop
(there is no try/catch around the body). -/
def postsLoop (E : Externals) (layout : String) :
    List PostFile → List Event × Except Err (List Obj)
  | [] => ([], Except.ok [])
  | p :: rest =>
    if startsWithDot p.name then postsLoop E layout rest
    else
      match buildPost E layout p with
      | Except.error e => ([], Except.error e)
      | Except.ok (out, md) =>
        (Event.writeFile out.path out.contents :: (postsLoop E layout rest).1,
         (postsLoop E layout rest).2.map (fun l => md :: l))

/-- `generatePosts`: read the posts listing and the post layout; with an
empty listing return `undefined` (modelled `none`), otherwise run the
loop and return the accumulated posts array. -/
def generatePosts (E : Externals) (fs : FS) :
    List Event × Except Err (Option (List Obj)) :=
  if fs.postsDir.isEmpty then ([], Except.ok none)
  else
    ((postsLoop E fs.postLayout fs.postsDir).1,
     (postsLoop E fs.postLayout fs.postsDir).2.map some)

/-- The metadata object passed to every page render: a single `posts`
property holding the accumulated post metadata array. -/
def pageMeta (posts : List Obj) : Obj :=
  [("posts", Value.arr (posts.map Value.obj))]

/-- The body of one iteration of the `generateRoutes` loop for a
non-dot file: the page file text is itself the template, rendered
against the `posts` object. -/
def buildPage (E : Externals) (posts : List Obj) (pg : PageFile) :
    Except Err PostOutput :=
  match E.renderString pg.text (pageMeta posts) with
  | Except.error e => Except.error e
  | Except.ok compiled =>
    Except.ok ⟨resolveDist ["/" ++ stripPageSlug pg.name, "index.html"], E.patch compiled⟩

/-- The `for (const pagePath of pagesPath)` loop of `generateRoutes`;
the accumulated array holds the raw page texts (`pages.push(content)`). -/
def pagesLoop (E : Externals) (posts : List Obj) :
    List PageFile → List Event × Except Err (List String)
  | [] => ([], Except.ok [])
  | pg :: rest =>
    if startsWithDot pg.name then pagesLoop E posts rest
    else
      match buildPage E posts pg with
      | Except.error e => ([], Except.error e)
      | Except.ok out =>
        (Event.writeFile out.path out.contents :: (pagesLoop E posts rest).1,
         (pagesLoop E posts rest).2.map (fun l => pg.text :: l))

/-- `generateRoutes`: with an empty pages listing return `undefined`
(modelled `none`), otherwise run the loop. -/
def generateRoutes (E : Externals) (fs : FS) (posts : List Obj) :
    List Event × Except Err (Option (List String)) :=
  if fs.pagesDir.isEmpty then ([], Except.ok none)
  else
    ((pagesLoop E posts fs.pagesDir).1,
     (pagesLoop E posts fs.pagesDir).2.map some)

/-- `processJSFiles`: wrap `terser.minify(js).code` in a resolved
promise.  The `error` field of the terser result is never inspected, so
the promise always resolves (possibly with `undefined`). -/
def processJSFiles (E : Externals) (js : String) : Option String :=
  (E.terserMinify js).code

/-- The `for (const filePath of files)` loop of `processAndCopyAssets`,
dispatching on `extname`: `.css` through the postcss chain, `.js`
through `processJSFiles`, anything else copied verbatim. -/
def assetsLoop (E : Externals) : List AssetFile → List Event
  | [] => []
  | a :: rest =>
    if extname a.path == ".css" then
      Event.processCss a.path ::
      Event.writeAsset (resolveDist [a.path]) (some (E.cssTransform a.text)) ::
      assetsLoop E rest
    else if extname a.path == ".js" then
      Event.processJs a.path ::
      Event.writeAsset (resolveDist [a.path]) (processJSFiles E a.text) ::
      assetsLoop E rest
    else
      Event.copyAsset a.path :: assetsLoop E rest

/-- `processAndCopyAssets`: list the assets recursively, drop every path
containing `.gitkeep`, then process each file in order. -/
def processAndCopyAssets (E : Externals) (fs : FS) : List Event :=
  assetsLoop E (fs.assets.filter (fun a => !(containsGitkeep a.path)))

/-- Events of `resolveConfig` plus `processConfig`: the config load,
then one filter registration per entry of `config.filters`. -/
def configEvents (cfg : Option Config) : List Event :=
  match cfg with
  | none => [Event.loadConfig]
  | some c => Event.loadConfig :: c.filters.map Event.regFilter

/-- The events of the fixed stages of `main` before post generation:
clean the dist tree, load the config and register its filters, create
the dist folder, set up the highlighter. -/
def mainPrefixEvents (fs : FS) : List Event :=
  Event.cleanDist :: configEvents fs.config ++
    [Event.mkdirDist, Event.initHighlighter]

/-- The `main` orchestrator.  After `generatePosts` the code reads
`posts.length` for the success log line, a TypeError when the function
returned `undefined`; likewise `pages.length` after `generateRoutes`.
Any error escaping `main` is logged by the top-level
`main().catch(...)`; it is returned here as the run result. -/
def mainRun (E : Externals) (fs : FS) : List Event × Except Err Unit :=
  match (generatePosts E fs).2 with
  | Except.error e =>
    (mainPrefixEvents fs ++ (generatePosts E fs).1, Except.error e)
  | Except.ok none =>
    (mainPrefixEvents fs ++ (generatePosts E fs).1,
     Except.error (Err.typeErr "Cannot read property length of undefined"))
  | Except.ok (some posts) =>
    match (generateRoutes E fs posts).2 with
    | Except.error e =>
      (mainPrefixEvents fs ++ (generatePosts E fs).1 ++ (generateRoutes E fs posts).1,
       Except.error e)
    | Except.ok none =>
      (mainPrefixEvents fs ++ (generatePosts E fs).1 ++ (generateRoutes E fs posts).1,
       Except.error (Err.typeErr "Cannot read property length of undefined"))
    | Except.ok (some _) =>
      (mainPrefixEvents fs ++ (generatePosts E fs).1 ++ (generateRoutes E fs posts).1
         ++ processAndCopyAssets E fs, Except.ok ())

/-- Whether an event is an awaited HTML document write. -/
def isHtmlWrite : Event → Bool
  | Event.writeFile _ _ => true
  | _ => false

/-- Whether an event is a CSS asset transform. -/
def isCssEvent : Event → Bool
  | Event.processCss _ => true
  | _ => false

/-- Whether an event writes the given output path as an HTML document. -/
def writesTo (path : String) : Event → Bool
  | Event.writeFile p _ => p == path
  | _ => false

/-- Whether an event belongs to the asset stage. -/
def isAssetEvent : Event → Bool
  | Event.processCss _ => true
  | Event.processJs _ => true
  | Event.writeAsset _ _ => true
  | Event.copyAsset _ => true
  | _ => false

/-- The non-dot entries of the posts listing, the ones the
`generatePosts` loop actually processes. -/
def filteredPosts (fs : FS) : List PostFile :=
  fs.postsDir.filter (fun p => !(startsWithDot p.name))

/-! ### Concrete instances of the black-box services, for evaluation -/

/-- A front-matter parser for concrete runs: no front-matter block, the
whole text is the body, the metadata mapping is empty. -/
def okMatter : String → Except Err (String × Obj) := fun t => Except.ok (t, [])

/-- A concrete template renderer that substitutes the `content`
variable: it returns the content value of the metadata when present and
the template text otherwise. -/
def contentRender : String → Obj → Except Err String := fun l md =>
  match getKey md "content" with
  | some (Value.str s) => Except.ok s
  | _ => Except.ok l

/-- A concrete markdown renderer knowing the one document of the
worked example. -/
def h1Marked : String → String := fun s => if s == "# Hi" then "<h1>Hi</h1>" else s

/-- A terser model that always succeeds and returns its input. -/
def okTerser : String → TerserResult := fun js => ⟨some js, none⟩

/-- Baseline concrete externals: every service succeeds. -/
def trivE : Externals := ⟨okMatter, id, contentRender, id, id, okTerser⟩

/-- Externals whose front-matter parser throws a parse error on the
text `BAD`. -/
def badMatterE : Externals :=
  ⟨fun t => if t == "BAD" then Except.error (Err.parseErr "bad") else Except.ok (t, []),
   id, contentRender, id, id, okTerser⟩

/-- Externals whose front-matter parser reports a user front matter
that redefines the reserved `url` and `content` keys. -/
def clashMatterE : Externals :=
  ⟨fun t =>
     Except.ok (t, [("url", Value.str "user-url"), ("content", Value.str "user-content")]),
   id, contentRender, id, id, okTerser⟩

/-- Externals for the markdown worked example. -/
def h1E : Externals := ⟨okMatter, h1Marked, contentRender, id, id, okTerser⟩

/-- A terser model with one known syntax-error input, per the terser v4
contract: `code` absent, `error` present, nothing thrown. -/
def jsFailTerser : String → TerserResult := fun js =>
  if js == "var (" then ⟨none, some "SyntaxError: unexpected token"⟩
  else ⟨some js, none⟩

/-- Externals whose JS minifier rejects one asset. -/
def jsFailE : Externals := ⟨okMatter, id, contentRender, id, id, jsFailTerser⟩

/-- A file tree whose first post has malformed front matter and whose
second post is well-formed, with one page and one asset. -/
def fsBadFirst : FS :=
  ⟨[⟨"bad.md", "BAD", 0, 0⟩, ⟨"good.md", "# Hi", 1, 2⟩],
   [⟨"index.html", "PAGE"⟩], [⟨"assets/style.css", "CSS"⟩], "LAYOUT", none⟩

/-- A file tree with two well-formed posts, one page and one asset. -/
def fsTwoPosts : FS :=
  ⟨[⟨"a.md", "# Hi", 0, 1⟩, ⟨"b.md", "# Hi", 2, 3⟩],
   [⟨"index.html", "PAGE"⟩], [⟨"assets/style.css", "CSS"⟩], "LAYOUT", none⟩

/-- A file tree whose single post name defeats the unescaped-dot slug
regex: `amd.md` matches `/.md/i` at position 0. -/
def fsAmd : FS :=
  ⟨[⟨"amd.md", "# Hi", 0, 0⟩], [⟨"index.html", "PAGE"⟩], [], "LAYOUT", none⟩

/-- A file tree with an empty posts directory. -/
def fsNoPosts : FS := ⟨[], [⟨"index.html", "PAGE"⟩], [], "LAYOUT", none⟩

/-- A file tree with one post and an empty pages directory. -/
def fsNoPages : FS := ⟨[⟨"p.md", "hi", 0, 0⟩], [], [], "LAYOUT", none⟩

/-- A file tree with a syntax-errored JS asset followed by an image. -/
def fsJsBad : FS :=
  ⟨[⟨"p.md", "hi", 0, 0⟩], [⟨"index.html", "PAGE"⟩],
   [⟨"assets/app.js", "var ("⟩, ⟨"assets/img.png", "IMG"⟩], "LAYOUT", none⟩

/-- The posts metadata sequence produced by `trivE` on `fsTwoPosts`. -/
def twoPostsMeta : List Obj :=
  [mkMetadata [] 0 1 "# Hi" "/blog/a", mkMetadata [] 2 3 "# Hi" "/blog/b"]

/-- The posts metadata sequence produced by `trivE` on `fsNoPages`. -/
def onePostMeta : List Obj := [mkMetadata [] 0 0 "hi" "/blog/p"]

/-- The metadata of `clashMatterE` on the post `p.md` with body `BODY`:
user front matter redefining `url` and `content`, then the computed
keys written over it. -/
def c3meta : Obj :=
  mkMetadata [("url", Value.str "user-url"), ("content", Value.str "user-content")]
    5 7 "BODY" "/blog/p"

/-- The post used for the reserved-key collision run. -/
def clashPost : PostFile := ⟨"p.md", "BODY", 5, 7⟩

/-- Two post files equal in name and text, different in stats. -/
def statPostA : PostFile := ⟨"p.md", "hi", 0, 0⟩

/-- Two post files equal in name and text, different in stats. -/
def statPostB : PostFile := ⟨"p.md", "hi", 10, 20⟩

/-! ### Object lemmas -/

theorem getKey_setKey_self (o : Obj) (k : String) (v : Value) :
    getKey (setKey o k v) k = some v := by
  induction o with
  | nil => simp [setKey, getKey]
  | cons p rest ih =>
    by_cases h : p.1 == k
    · simp [setKey, h, getKey]
    · simpa [setKey, h, getKey] using ih

theorem getKey_setKey_ne (o : Obj) (k k' : String) (v : Value) (h : k' ≠ k) :
    getKey (setKey o k v) k' = getKey o k' := by
  have hkk : (k == k') = false := by
    simp only [beq_eq_false_iff_ne, ne_eq]
    exact fun hkk => h hkk.symm
  induction o with
  | nil => simp [setKey, getKey, List.find?, hkk]
  | cons p rest ih =>
    by_cases hp : (p.1 == k) = true
    · have hp' : p.1 = k := by simpa using hp
      have hq : (p.1 == k') = false := by rw [hp']; exact hkk
      simp [setKey, hp, getKey, List.find?, hq, hkk]
    · simp only [Bool.not_eq_true] at hp
      by_cases hq : (p.1 == k') = true
      · simp [setKey, hp, getKey, List.find?, hq]
      · simp only [Bool.not_eq_true] at hq
        simpa [setKey, hp, getKey, List.find?, hq] using ih

theorem getKey_mkMetadata_url (d : Obj) (c u : Nat) (ct url : String) :
    getKey (mkMetadata d c u ct url) "url" = some (Value.str url) := by
  unfold mkMetadata
  exact getKey_setKey_self _ _ _

theorem getKey_mkMetadata_content (d : Obj) (c u : Nat) (ct url : String) :
    getKey (mkMetadata d c u ct url) "content" = some (Value.str ct) := by
  unfold mkMetadata
  rw [getKey_setKey_ne _ _ _ _ (by decide)]
  exact getKey_setKey_self _ _ _

theorem getKey_mkMetadata_createdAt (d : Obj) (c u : Nat) (ct url : String) :
    getKey (mkMetadata d c u ct url) "createdAt" = some (Value.time c) := by
  unfold mkMetadata
  rw [getKey_setKey_ne _ _ _ _ (by decide), getKey_setKey_ne _ _ _ _ (by decide),
    getKey_setKey_ne _ _ _ _ (by decide)]
  exact getKey_setKey_self _ _ _

theorem getKey_mkMetadata_updatedAt (d : Obj) (c u : Nat) (ct url : String) :
    getKey (mkMetadata d c u ct url) "updatedAt" = some (Value.time u) := by
  unfold mkMetadata
  rw [getKey_setKey_ne _ _ _ _ (by decide), getKey_setKey_ne _ _ _ _ (by decide)]
  exact getKey_setKey_self _ _ _

theorem getKey_mkMetadata_other (d : Obj) (c u : Nat) (ct url : String) (k : String)
    (h1 : k ≠ "createdAt") (h2 : k ≠ "updatedAt") (h3 : k ≠ "content") (h4 : k ≠ "url") :
    getKey (mkMetadata d c u ct url) k = getKey d k := by
  unfold mkMetadata
  rw [getKey_setKey_ne _ _ _ _ h4, getKey_setKey_ne _ _ _ _ h3,
    getKey_setKey_ne _ _ _ _ h2, getKey_setKey_ne _ _ _ _ h1]

/-! ### Destructors for the pipeline functions -/

theorem buildPost_ok_elim {E : Externals} {layout : String} {p : PostFile}
    {out : PostOutput} {md : Obj}
    (h : buildPost E layout p = Except.ok (out, md)) :
    ∃ content data compiled,
      processMarkdown E p.text = Except.ok (content, data) ∧
      md = mkMetadata data p.birthtime p.mtime content ("/blog/" ++ stripMdSlug p.name) ∧
      E.renderString layout md = Except.ok compiled ∧
      out = ⟨resolveDist ["/blog/" ++ stripMdSlug p.name, "index.html"], E.patch compiled⟩ := by
  unfold buildPost at h
  split at h
  · cases h
  · rename_i content data hm
    split at h
    · cases h
    · rename_i compiled hr
      simp only [Except.ok.injEq, Prod.mk.injEq] at h
      obtain ⟨ho, hmd⟩ := h
      refine ⟨content, data, compiled, hm, hmd.symm, ?_, ho.symm⟩
      rw [← hmd]
      exact hr

theorem generatePosts_ok {E : Externals} {fs : FS} {posts : List Obj}
    (h : (generatePosts E fs).2 = Except.ok (some posts)) :
    (postsLoop E fs.postLayout fs.postsDir).2 = Except.ok posts ∧
    (generatePosts E fs).1 = (postsLoop E fs.postLayout fs.postsDir).1 := by
  unfold generatePosts at h ⊢
  by_cases he : fs.postsDir.isEmpty
  · simp [he] at h
  · simp only [he, if_false] at h ⊢
    cases hl : (postsLoop E fs.postLayout fs.postsDir).2 with
    | error e => rw [hl] at h; cases h
    | ok l =>
      rw [hl] at h
      simp only [Except.map] at h
      cases h
      exact ⟨rfl, rfl⟩

theorem generateRoutes_ok {E : Externals} {fs : FS} {posts : List Obj} {pages : List String}
    (h : (generateRoutes E fs posts).2 = Except.ok (some pages)) :
    (pagesLoop E posts fs.pagesDir).2 = Except.ok pages ∧
    (generateRoutes E fs posts).1 = (pagesLoop E posts fs.pagesDir).1 := by
  unfold generateRoutes at h ⊢
  by_cases he : fs.pagesDir.isEmpty
  · simp [he] at h
  · simp only [he, if_false] at h ⊢
    cases hl : (pagesLoop E posts fs.pagesDir).2 with
    | error e => rw [hl] at h; cases h
    | ok l =>
      rw [hl] at h
      simp only [Except.map] at h
      cases h
      exact ⟨rfl, rfl⟩

/-! ### Shape of the event traces -/

theorem postsLoop_events_write (E : Externals) (layout : String) :
    ∀ l : List PostFile, ∀ e ∈ (postsLoop E layout l).1, isHtmlWrite e = true := by
  intro l
  induction l with
  | nil => intro e he; simp [postsLoop] at he
  | cons p rest ih =>
    intro e he
    by_cases hd : startsWithDot p.name
    · rw [postsLoop, if_pos hd] at he
      exact ih e he
    · rw [postsLoop, if_neg hd] at he
      revert he
      cases hb : buildPost E layout p with
      | error er => intro he; simp at he
      | ok om =>
        obtain ⟨out, md⟩ := om
        intro he
        simp only [List.mem_cons] at he
        cases he with
        | inl h => rw [h]; rfl
        | inr h => exact ih e h

theorem pagesLoop_events_write (E : Externals) (posts : List Obj) :
    ∀ l : List PageFile, ∀ e ∈ (pagesLoop E posts l).1, isHtmlWrite e = true := by
  intro l
  induction l with
  | nil => intro e he; simp [pagesLoop] at he
  | cons pg rest ih =>
    intro e he
    by_cases hd : startsWithDot pg.name
    · rw [pagesLoop, if_pos hd] at he
      exact ih e he
    · rw [pagesLoop, if_neg hd] at he
      revert he
      cases hb : buildPage E posts pg with
      | error er => intro he; simp at he
      | ok out =>
        intro he
        simp only [List.mem_cons] at he
        cases he with
        | inl h => rw [h]; rfl
        | inr h => exact ih e h

theorem assetsLoop_no_html (E : Externals) :
    ∀ l : List AssetFile, ∀ e ∈ assetsLoop E l, isHtmlWrite e = false := by
  intro l
  induction l with
  | nil => intro e he; simp [assetsLoop] at he
  | cons a rest ih =>
    intro e he
    rw [assetsLoop] at he
    by_cases hc : extname a.path == ".css"
    · rw [if_pos hc] at he
      simp only [List.mem_cons] at he
      rcases he with h | h | h
      · rw [h]; rfl
      · rw [h]; rfl
      · exact ih e h
    · rw [if_neg hc] at he
      by_cases hj : extname a.path == ".js"
      · rw [if_pos hj] at he
        simp only [List.mem_cons] at he
        rcases he with h | h | h
        · rw [h]; rfl
        · rw [h]; rfl
        · exact ih e h
      · rw [if_neg hj] at he
        simp only [List.mem_cons] at he
        rcases he with h | h
        · rw [h]; rfl
        · exact ih e h

theorem configEvents_shape (cfg : Option Config) :
    ∀ e ∈ configEvents cfg, isCssEvent e = false ∧ isHtmlWrite e = false := by
  intro e he
  cases cfg with
  | none =>
    simp only [configEvents, List.mem_singleton] at he
    subst he; exact ⟨rfl, rfl⟩
  | some c =>
    simp only [configEvents, List.mem_cons, List.mem_map] at he
    rcases he with h | ⟨n, _, h⟩
    · subst h; exact ⟨rfl, rfl⟩
    · subst h; exact ⟨rfl, rfl⟩

theorem mainPrefix_shape (fs : FS) :
    ∀ e ∈ mainPrefixEvents fs, isCssEvent e = false ∧ isHtmlWrite e = false := by
  intro e he
  simp only [mainPrefixEvents, List.cons_append, List.mem_cons, List.mem_append,
    List.not_mem_nil, or_false] at he
  rcases he with h | h | h | h
  · subst h; exact ⟨rfl, rfl⟩
  · exact configEvents_shape fs.config e h
  · subst h; exact ⟨rfl, rfl⟩
  · subst h; exact ⟨rfl, rfl⟩

theorem forall₂_mem_right {α β : Type} {R : α → β → Prop} :
    ∀ {l₁ : List α} {l₂ : List β}, List.Forall₂ R l₁ l₂ → ∀ b ∈ l₂, ∃ a ∈ l₁, R a b := by
  intro l₁ l₂ h
  induction h with
  | nil => intro b hb; simp at hb
  | cons hR hF ih =>
    intro b hb
    rcases List.mem_cons.mp hb with h | h
    · subst h; exact ⟨_, List.mem_cons_self _ _, hR⟩
    · obtain ⟨a, ha, hr⟩ := ih b h
      exact ⟨a, List.mem_cons_of_mem _ ha, hr⟩

theorem forall₂_mem_left {α β : Type} {R : α → β → Prop} :
    ∀ {l₁ : List α} {l₂ : List β}, List.Forall₂ R l₁ l₂ → ∀ a ∈ l₁, ∃ b ∈ l₂, R a b := by
  intro l₁ l₂ h
  induction h with
  | nil => intro a ha; simp at ha
  | cons hR hF ih =>
    intro a ha
    rcases List.mem_cons.mp ha with h | h
    · subst h; exact ⟨_, List.mem_cons_self _ _, hR⟩
    · obtain ⟨b, hb, hr⟩ := ih a h
      exact ⟨b, List.mem_cons_of_mem _ hb, hr⟩

theorem postsLoop_cons_dot {E : Externals} {layout : String} {p : PostFile}
    {rest : List PostFile} (hd : startsWithDot p.name) :
    postsLoop E layout (p :: rest) = postsLoop E layout rest := by
  rw [postsLoop, if_pos hd]

theorem postsLoop_cons_err {E : Externals} {layout : String} {p : PostFile}
    {rest : List PostFile} {e : Err} (hd : ¬ startsWithDot p.name)
    (hb : buildPost E layout p = Except.error e) :
    postsLoop E layout (p :: rest) = ([], Except.error e) := by
  rw [postsLoop, if_neg hd, hb]

theorem postsLoop_cons_ok {E : Externals} {layout : String} {p : PostFile}
    {rest : List PostFile} {out : PostOutput} {md : Obj}
    (hd : ¬ startsWithDot p.name) (hb : buildPost E layout p = Except.ok (out, md)) :
    postsLoop E layout (p :: rest) =
      (Event.writeFile out.path out.contents :: (postsLoop E layout rest).1,
       (postsLoop E layout rest).2.map (fun l => md :: l)) := by
  rw [postsLoop, if_neg hd, hb]

theorem pagesLoop_cons_dot {E : Externals} {posts : List Obj} {pg : PageFile}
    {rest : List PageFile} (hd : startsWithDot pg.name) :
    pagesLoop E posts (pg :: rest) = pagesLoop E posts rest := by
  rw [pagesLoop, if_pos hd]

theorem pagesLoop_cons_err {E : Externals} {posts : List Obj} {pg : PageFile}
    {rest : List PageFile} {e : Err} (hd : ¬ startsWithDot pg.name)
    (hb : buildPage E posts pg = Except.error e) :
    pagesLoop E posts (pg :: rest) = ([], Except.error e) := by
  rw [pagesLoop, if_neg hd, hb]

theorem pagesLoop_cons_ok {E : Externals} {posts : List Obj} {pg : PageFile}
    {rest : List PageFile} {out : PostOutput}
    (hd : ¬ startsWithDot pg.name) (hb : buildPage E posts pg = Except.ok out) :
    pagesLoop E posts (pg :: rest) =
      (Event.writeFile out.path out.contents :: (pagesLoop E posts rest).1,
       (pagesLoop E posts rest).2.map (fun l => pg.text :: l)) := by
  rw [pagesLoop, if_neg hd, hb]

/-- Full characterization of a successful `generatePosts` loop: the
non-dot files of the listing are in order-preserving one-to-one
correspondence with successful `buildPost` results; the returned posts
array is the metadata of each, in listing order; the event trace is one
awaited HTML write per post, in listing order. -/
theorem postsLoop_spec (E : Externals) (layout : String) :
    ∀ (l : List PostFile) (posts : List Obj),
      (postsLoop E layout l).2 = Except.ok posts →
      ∃ pairs : List (PostOutput × Obj),
        List.Forall₂ (fun p pr => buildPost E layout p = Except.ok pr)
          (l.filter (fun p => !(startsWithDot p.name))) pairs ∧
        posts = pairs.map Prod.snd ∧
        (postsLoop E layout l).1 =
          pairs.map (fun pr => Event.writeFile pr.1.path pr.1.contents) := by
  intro l
  induction l with
  | nil =>
    intro posts h
    simp only [postsLoop, Except.ok.injEq] at h
    subst h
    exact ⟨[], List.Forall₂.nil, rfl, rfl⟩
  | cons p rest ih =>
    intro posts
    by_cases hd : startsWithDot p.name
    · rw [postsLoop_cons_dot hd]
      intro h
      obtain ⟨pairs, hf, hp, he⟩ := ih posts h
      refine ⟨pairs, ?_, hp, he⟩
      rw [List.filter_cons_of_neg (by simp [hd])]
      exact hf
    · cases hb : buildPost E layout p with
      | error er =>
        rw [postsLoop_cons_err hd hb]
        intro h; simp at h
      | ok om =>
        obtain ⟨out, md⟩ := om
        rw [postsLoop_cons_ok hd hb]
        cases hr : (postsLoop E layout rest).2 with
        | error er =>
          intro h
          simp [Except.map] at h
        | ok tl =>
          intro h
          simp only [Except.map, Except.ok.injEq] at h
          obtain ⟨pairs, hf, hp, he⟩ := ih tl hr
          refine ⟨(out, md) :: pairs, ?_, ?_, ?_⟩
          · rw [List.filter_cons_of_pos (by simp [hd])]
            exact List.Forall₂.cons hb hf
          · rw [← h, hp]
            rfl
          · simp only [List.map_cons]
            rw [← he]

/-- Every non-dot page of a successful `generateRoutes` loop has a
successful `buildPage` result whose write event is in the trace. -/
theorem pagesLoop_writes (E : Externals) (posts : List Obj) :
    ∀ (l : List PageFile) (res : List String),
      (pagesLoop E posts l).2 = Except.ok res →
      ∀ pg ∈ l, startsWithDot pg.name = false →
        ∃ out, buildPage E posts pg = Except.ok out ∧
          Event.writeFile out.path out.contents ∈ (pagesLoop E posts l).1 := by
  intro l
  induction l with
  | nil => intro res _ pg hpg; simp at hpg
  | cons pg' rest ih =>
    intro res
    by_cases hd : startsWithDot pg'.name
    · rw [pagesLoop_cons_dot hd]
      intro h pg hpg hnd
      rcases List.mem_cons.mp hpg with hq | hq
      · subst hq; rw [hd] at hnd; cases hnd
      · exact ih res h pg hq hnd
    · cases hb : buildPage E posts pg' with
      | error er =>
        rw [pagesLoop_cons_err hd hb]
        intro h; simp at h
      | ok out' =>
        rw [pagesLoop_cons_ok hd hb]
        cases hr : (pagesLoop E posts rest).2 with
        | error er =>
          intro h
          simp [Except.map] at h
        | ok tl =>
          intro h pg hpg hnd
          rcases List.mem_cons.mp hpg with hq | hq
          · subst hq
            exact ⟨out', hb, List.mem_cons_self _ _⟩
          · obtain ⟨out, hbo, hmem⟩ := ih tl hr pg hq hnd
            exact ⟨out, hbo, List.mem_cons_of_mem _ hmem⟩

/-- In a trace `A ++ B` where `A` holds no CSS transform and `B` holds
no HTML write, every CSS transform is strictly later than every HTML
write. -/
theorem append_css_after_html {A B : List Event}
    (hA : ∀ e ∈ A, isCssEvent e = false) (hB : ∀ e ∈ B, isHtmlWrite e = false) :
    ∀ (i j : Nat) (hi : i < (A ++ B).length) (hj : j < (A ++ B).length),
      isCssEvent ((A ++ B).get ⟨i, hi⟩) = true →
      isHtmlWrite ((A ++ B).get ⟨j, hj⟩) = true → j < i := by
  intro i j hi hj hci hhj
  have hL : (A ++ B).length = A.length + B.length := List.length_append A B
  have hiA : ¬ i < A.length := by
    intro hlt
    have hget : (A ++ B).get ⟨i, hi⟩ = A.get ⟨i, hlt⟩ := by
      have h1 : (A ++ B)[i] = A[i] := List.getElem_append_left hlt
      simpa using h1
    rw [hget] at hci
    rw [hA _ (A.get_mem i hlt)] at hci
    cases hci
  have hjA : j < A.length := by
    by_contra hge
    push_neg at hge
    have hjB : j - A.length < B.length := by omega
    have hget : (A ++ B).get ⟨j, hj⟩ = B.get ⟨j - A.length, hjB⟩ := by
      have h1 : (A ++ B)[j] = B[j - A.length] := List.getElem_append_right hge
      simpa using h1
    rw [hget] at hhj
    rw [hB _ (B.get_mem _ _)] at hhj
    cases hhj
  omega

theorem buildPage_ok_elim {E : Externals} {posts : List Obj} {pg : PageFile}
    {out : PostOutput} (h : buildPage E posts pg = Except.ok out) :
    ∃ s, E.renderString pg.text (pageMeta posts) = Except.ok s ∧
      out = ⟨resolveDist ["/" ++ stripPageSlug pg.name, "index.html"], E.patch s⟩ := by
  unfold buildPage at h
  split at h
  · cases h
  · rename_i s hr
    simp only [Except.ok.injEq] at h
    exact ⟨s, hr, h.symm⟩

theorem buildPost_ok_intro (E : Externals) (layout : String) (p : PostFile)
    {content : String} {data : Obj} {s : String}
    (hm : processMarkdown E p.text = Except.ok (content, data))
    (hr : E.renderString layout
      (mkMetadata data p.birthtime p.mtime content ("/blog/" ++ stripMdSlug p.name)) =
      Except.ok s) :
    buildPost E layout p = Except.ok
      (⟨resolveDist ["/blog/" ++ stripMdSlug p.name, "index.html"], E.patch s⟩,
       mkMetadata data p.birthtime p.mtime content ("/blog/" ++ stripMdSlug p.name)) := by
  unfold buildPost
  simp only [hm, hr]

theorem hasPre_refl : ∀ l : List Char, hasPre l l = true := by
  intro l
  induction l with
  | nil => rfl
  | cons c rest ih => simp [hasPre, ih]

theorem subOf_refl : ∀ l : List Char, subOf l l = true := by
  intro l
  cases l with
  | nil => rfl
  | cons c rest => simp [subOf, hasPre_refl]

theorem isHtmlWrite_not_css {e : Event} (h : isHtmlWrite e = true) :
    isCssEvent e = false := by
  cases e <;> first | rfl | cases h

theorem isHtmlWrite_not_asset {e : Event} (h : isHtmlWrite e = true) :
    isAssetEvent e = false := by
  cases e <;> first | rfl | cases h

theorem generatePosts_events_write (E : Externals) (fs : FS) :
    ∀ e ∈ (generatePosts E fs).1, isHtmlWrite e = true := by
  intro e he
  unfold generatePosts at he
  by_cases h : fs.postsDir.isEmpty
  · rw [if_pos h] at he; simp at he
  · rw [if_neg h] at he
    exact postsLoop_events_write _ _ _ e he

theorem generateRoutes_events_write (E : Externals) (fs : FS) (posts : List Obj) :
    ∀ e ∈ (generateRoutes E fs posts).1, isHtmlWrite e = true := by
  intro e he
  unfold generateRoutes at he
  by_cases h : fs.pagesDir.isEmpty
  · rw [if_pos h] at he; simp at he
  · rw [if_neg h] at he
    exact pagesLoop_events_write _ _ _ e he

theorem configEvents_not_asset (cfg : Option Config) :
    ∀ e ∈ configEvents cfg, isAssetEvent e = false := by
  intro e he
  cases cfg with
  | none =>
    simp only [configEvents, List.mem_singleton] at he
    subst he; rfl
  | some c =>
    simp only [configEvents, List.mem_cons, List.mem_map] at he
    rcases he with h | ⟨n, _, h⟩
    · subst h; rfl
    · subst h; rfl

theorem mainPrefix_not_asset (fs : FS) :
    ∀ e ∈ mainPrefixEvents fs, isAssetEvent e = false := by
  intro e he
  simp only [mainPrefixEvents, List.cons_append, List.mem_cons, List.mem_append,
    List.not_mem_nil, or_false] at he
  rcases he with h | h | h | h
  · subst h; rfl
  · exact configEvents_not_asset fs.config e h
  · subst h; rfl
  · subst h; rfl

/-! ### Claim theorems -/

/-- C2: for every successfully built post, regardless of the keys the
user supplied in its front matter, the metadata object rendered into
the layout and appended to the posts sequence contains all four
reserved computed keys `content`, `url`, `createdAt` and `updatedAt`. -/
theorem c2_reserved_keys_present (E : Externals) (fs : FS) (posts : List Obj)
    (hp : (generatePosts E fs).2 = Except.ok (some posts)) :
    ∀ md ∈ posts,
      (getKey md "content").isSome = true ∧ (getKey md "url").isSome = true ∧
      (getKey md "createdAt").isSome = true ∧ (getKey md "updatedAt").isSome = true := by
  intro md hmd
  obtain ⟨hloop, -⟩ := generatePosts_ok hp
  obtain ⟨pairs, hf, hpmap, -⟩ := postsLoop_spec E fs.postLayout fs.postsDir posts hloop
  subst hpmap
  obtain ⟨pr, hpr, hsnd⟩ := List.mem_map.mp hmd
  obtain ⟨out, md'⟩ := pr
  obtain ⟨p, hpmem, hbp⟩ := forall₂_mem_right hf (out, md') hpr
  replace hsnd : md' = md := hsnd
  subst hsnd
  obtain ⟨content, data, compiled, hm, hmd2, -, -⟩ := buildPost_ok_elim hbp
  subst hmd2
  rw [getKey_mkMetadata_content, getKey_mkMetadata_url, getKey_mkMetadata_createdAt,
    getKey_mkMetadata_updatedAt]
  exact ⟨rfl, rfl, rfl, rfl⟩

/-- Witness for C2: the two-post build of `fsTwoPosts` under `trivE`
succeeds, and the metadata of its first post carries the four reserved
keys. -/
theorem c2_witness :
    (getKey (mkMetadata [] 0 1 "# Hi" "/blog/a") "content").isSome = true ∧
    (getKey (mkMetadata [] 0 1 "# Hi" "/blog/a") "url").isSome = true ∧
    (getKey (mkMetadata [] 0 1 "# Hi" "/blog/a") "createdAt").isSome = true ∧
    (getKey (mkMetadata [] 0 1 "# Hi" "/blog/a") "updatedAt").isSome = true :=
  c2_reserved_keys_present trivE fsTwoPosts twoPostsMeta rfl
    (mkMetadata [] 0 1 "# Hi" "/blog/a") (List.mem_cons_self _ _)

/-- C3 counterexample: user front matter that redefines the reserved
`url` and `content` keys does NOT win — the metadata passed to the
template renderer carries the pipeline-computed values, not the
user-supplied ones. -/
theorem c3_counterexample :
    buildPost clashMatterE "LAYOUT" clashPost =
      Except.ok (⟨"dist/blog/p/index.html", "BODY"⟩, c3meta) ∧
    getKey c3meta "url" = some (Value.str "/blog/p") ∧
    getKey c3meta "url" ≠ some (Value.str "user-url") ∧
    getKey c3meta "content" = some (Value.str "BODY") ∧
    getKey c3meta "content" ≠ some (Value.str "user-content") := by
  refine ⟨rfl, rfl, ?_, rfl, ?_⟩
  · intro h
    have h0 : getKey c3meta "url" = some (Value.str "/blog/p") := rfl
    rw [h0] at h
    injection h with h1
    injection h1 with h2
    exact absurd h2 (by decide)
  · intro h
    have h0 : getKey c3meta "content" = some (Value.str "BODY") := rfl
    rw [h0] at h
    injection h with h1
    injection h1 with h2
    exact absurd h2 (by decide)

/-- C3 (amended): on a reserved-key collision the pipeline-computed
value wins — the computed keys are written after the front matter
(last write wins), so the metadata passed to the renderer carries the
computed `url`, `createdAt`, `updatedAt` and rendered `content`
whatever the user front matter said. -/
theorem c3_computed_keys_win (E : Externals) (layout : String) (p : PostFile)
    (out : PostOutput) (md : Obj)
    (hb : buildPost E layout p = Except.ok (out, md)) :
    getKey md "url" = some (Value.str ("/blog/" ++ stripMdSlug p.name)) ∧
    getKey md "createdAt" = some (Value.time p.birthtime) ∧
    getKey md "updatedAt" = some (Value.time p.mtime) ∧
    ∃ body data, E.matter p.text = Except.ok (body, data) ∧
      getKey md "content" = some (Value.str (E.markedParse body)) := by
  obtain ⟨content, data, compiled, hm, hmd, -, -⟩ := buildPost_ok_elim hb
  subst hmd
  refine ⟨getKey_mkMetadata_url _ _ _ _ _, getKey_mkMetadata_createdAt _ _ _ _ _,
    getKey_mkMetadata_updatedAt _ _ _ _ _, ?_⟩
  unfold processMarkdown at hm
  cases hma : E.matter p.text with
  | error e => rw [hma] at hm; cases hm
  | ok pr =>
    rw [hma] at hm
    simp only [Except.map, Except.ok.injEq, Prod.mk.injEq] at hm
    obtain ⟨hc, hd⟩ := hm
    refine ⟨pr.1, pr.2, rfl, ?_⟩
    rw [hc]
    exact getKey_mkMetadata_content _ _ _ _ _

/-- Witness for C3 (amended): applied to the colliding front matter of
`clashMatterE`. -/
theorem c3_witness :
    getKey c3meta "url" = some (Value.str ("/blog/" ++ stripMdSlug clashPost.name)) ∧
    getKey c3meta "createdAt" = some (Value.time clashPost.birthtime) ∧
    getKey c3meta "updatedAt" = some (Value.time clashPost.mtime) ∧
    ∃ body data, clashMatterE.matter clashPost.text = Except.ok (body, data) ∧
      getKey c3meta "content" = some (Value.str (clashMatterE.markedParse body)) :=
  c3_computed_keys_win clashMatterE "LAYOUT" clashPost
    ⟨"dist/blog/p/index.html", "BODY"⟩ c3meta rfl

/-- C9: with an empty posts directory `generatePosts` returns
`undefined` (not an empty sequence) and `main` then crashes reading
`.length` of it; likewise for an empty pages directory and
`generateRoutes`.  The build terminates with the TypeError instead of
producing an empty site. -/
theorem c9_empty_dir_typeerror (E : Externals) (fs : FS) :
    (fs.postsDir = [] →
      (generatePosts E fs).2 = Except.ok none ∧
      (mainRun E fs).2 =
        Except.error (Err.typeErr "Cannot read property length of undefined")) ∧
    (fs.pagesDir = [] → ∀ posts, (generatePosts E fs).2 = Except.ok (some posts) →
      (generateRoutes E fs posts).2 = Except.ok none ∧
      (mainRun E fs).2 =
        Except.error (Err.typeErr "Cannot read property length of undefined")) := by
  constructor
  · intro h
    have h1 : (generatePosts E fs).2 = Except.ok none := by
      unfold generatePosts
      rw [h]
      rfl
    refine ⟨h1, ?_⟩
    simp only [mainRun, h1]
  · intro h posts hp
    have h1 : (generateRoutes E fs posts).2 = Except.ok none := by
      unfold generateRoutes
      rw [h]
      rfl
    refine ⟨h1, ?_⟩
    simp only [mainRun, hp, h1]

/-- Witness for C9: both TypeError paths at concrete file trees. -/
theorem c9_witness :
    ((generatePosts trivE fsNoPosts).2 = Except.ok none ∧
     (mainRun trivE fsNoPosts).2 =
       Except.error (Err.typeErr "Cannot read property length of undefined")) ∧
    ((generateRoutes trivE fsNoPages onePostMeta).2 = Except.ok none ∧
     (mainRun trivE fsNoPages).2 =
       Except.error (Err.typeErr "Cannot read property length of undefined")) :=
  ⟨(c9_empty_dir_typeerror trivE fsNoPosts).1 rfl,
   (c9_empty_dir_typeerror trivE fsNoPages).2 rfl onePostMeta rfl⟩

/-- C10: a file whose name begins with a dot is skipped entirely by the
posts loop and by the pages loop — it produces no output, contributes
no entry, and leaves the processing of every other item unchanged; and
an asset whose path contains `.gitkeep` is excluded from asset
processing. -/
theorem c10_dotfiles_skipped :
    (∀ (E : Externals) (layout : String) (xs ys : List PostFile) (d : PostFile),
      startsWithDot d.name = true →
      postsLoop E layout (xs ++ d :: ys) = postsLoop E layout (xs ++ ys)) ∧
    (∀ (E : Externals) (posts : List Obj) (xs ys : List PageFile) (d : PageFile),
      startsWithDot d.name = true →
      pagesLoop E posts (xs ++ d :: ys) = pagesLoop E posts (xs ++ ys)) ∧
    (∀ (E : Externals) (pd : List PostFile) (gd : List PageFile)
        (xs ys : List AssetFile) (g : AssetFile) (lay : String) (cfg : Option Config),
      containsGitkeep g.path = true →
      processAndCopyAssets E ⟨pd, gd, xs ++ g :: ys, lay, cfg⟩ =
        processAndCopyAssets E ⟨pd, gd, xs ++ ys, lay, cfg⟩) := by
  refine ⟨?_, ?_, ?_⟩
  · intro E layout xs ys d hd
    induction xs with
    | nil => exact postsLoop_cons_dot hd
    | cons x xs ih =>
      by_cases hx : startsWithDot x.name
      · rw [List.cons_append, postsLoop_cons_dot hx, List.cons_append,
          postsLoop_cons_dot hx]
        exact ih
      · cases hb : buildPost E layout x with
        | error er =>
          rw [List.cons_append, postsLoop_cons_err hx hb, List.cons_append,
            postsLoop_cons_err hx hb]
        | ok om =>
          obtain ⟨out, md⟩ := om
          rw [List.cons_append, postsLoop_cons_ok hx hb, List.cons_append,
            postsLoop_cons_ok hx hb, ih]
  · intro E posts xs ys d hd
    induction xs with
    | nil => exact pagesLoop_cons_dot hd
    | cons x xs ih =>
      by_cases hx : startsWithDot x.name
      · rw [List.cons_append, pagesLoop_cons_dot hx, List.cons_append,
          pagesLoop_cons_dot hx]
        exact ih
      · cases hb : buildPage E posts x with
        | error er =>
          rw [List.cons_append, pagesLoop_cons_err hx hb, List.cons_append,
            pagesLoop_cons_err hx hb]
        | ok out =>
          rw [List.cons_append, pagesLoop_cons_ok hx hb, List.cons_append,
            pagesLoop_cons_ok hx hb, ih]
  · intro E pd gd xs ys g lay cfg hg
    unfold processAndCopyAssets
    simp only
    rw [List.filter_append, List.filter_append, List.filter_cons_of_neg (by simp [hg])]

/-- Witness for C10: a `.gitkeep` entry between two posts, between two
pages, and among the assets, each skipped. -/
theorem c10_witness :
    postsLoop trivE "L"
        ([(⟨"a.md", "x", 0, 0⟩ : PostFile)] ++ ⟨".gitkeep", "", 0, 0⟩ :: [⟨"b.md", "y", 0, 0⟩]) =
      postsLoop trivE "L" ([(⟨"a.md", "x", 0, 0⟩ : PostFile)] ++ [⟨"b.md", "y", 0, 0⟩]) ∧
    pagesLoop trivE []
        ([(⟨"p.html", "x"⟩ : PageFile)] ++ ⟨".gitkeep", ""⟩ :: [⟨"q.html", "y"⟩]) =
      pagesLoop trivE [] ([(⟨"p.html", "x"⟩ : PageFile)] ++ [⟨"q.html", "y"⟩]) ∧
    processAndCopyAssets trivE
        ⟨[], [], [(⟨"assets/a.css", "A"⟩ : AssetFile)] ++ ⟨"assets/.gitkeep", ""⟩ ::
          [⟨"assets/b.js", "B"⟩], "L", none⟩ =
      processAndCopyAssets trivE
        ⟨[], [], [(⟨"assets/a.css", "A"⟩ : AssetFile)] ++ [⟨"assets/b.js", "B"⟩], "L", none⟩ :=
  ⟨c10_dotfiles_skipped.1 trivE "L" _ _ _ rfl,
   c10_dotfiles_skipped.2.1 trivE [] _ _ _ rfl,
   c10_dotfiles_skipped.2.2 trivE [] [] _ _ _ "L" none rfl⟩

/-- C1 counterexample: with the front matter of the first post
malformed, the build does NOT soft-fail per item — the well-formed
second post of `fsBadFirst` is also absent from the output, no asset
stage runs, and the whole run ends with the parse error. -/
theorem c1_counterexample :
    (mainRun badMatterE fsBadFirst).2 = Except.error (Err.parseErr "bad") ∧
    ((mainRun badMatterE fsBadFirst).1.all
      (fun e => !(writesTo "dist/blog/good/index.html" e))) = true ∧
    ((mainRun badMatterE fsBadFirst).1.all (fun e => !(isAssetEvent e))) = true := by
  exact ⟨rfl, rfl, rfl⟩

/-- C1 (amended): a content-level failure in any post aborts the whole
build, not just that post: the error escapes `generatePosts`, `main`
rethrows it (the top-level catch only logs), the trace ends with the
posts written before the failure and no page or asset stage runs. -/
theorem c1_abort_propagation (E : Externals) (fs : FS) (e : Err)
    (h : (generatePosts E fs).2 = Except.error e) :
    (mainRun E fs).2 = Except.error e ∧
    (mainRun E fs).1 = mainPrefixEvents fs ++ (generatePosts E fs).1 ∧
    ∀ ev ∈ (mainRun E fs).1, isAssetEvent ev = false := by
  have htr : mainRun E fs = (mainPrefixEvents fs ++ (generatePosts E fs).1, Except.error e) := by
    simp only [mainRun, h]
  refine ⟨by rw [htr], by rw [htr], ?_⟩
  intro ev hev
  rw [htr] at hev
  rcases List.mem_append.mp hev with hm | hm
  · exact mainPrefix_not_asset fs ev hm
  · exact isHtmlWrite_not_asset (generatePosts_events_write E fs ev hm)

/-- Witness for C1 (amended): instantiated on the malformed first post
of `fsBadFirst`. -/
theorem c1_witness :
    (mainRun badMatterE fsBadFirst).2 = Except.error (Err.parseErr "bad") ∧
    (mainRun badMatterE fsBadFirst).1 =
      mainPrefixEvents fsBadFirst ++ (generatePosts badMatterE fsBadFirst).1 ∧
    ∀ ev ∈ (mainRun badMatterE fsBadFirst).1, isAssetEvent ev = false :=
  c1_abort_propagation badMatterE fsBadFirst (Err.parseErr "bad") rfl

/-- C4 counterexample: the slug is NOT the filename minus its
extension.  The replace pattern `/.md/i` has an unescaped dot, so for
the post `amd.md` it deletes the leading `amd`, the page is written to
`dist/blog/.md/index.html`, and nothing is written to
`dist/blog/amd/index.html`. -/
theorem c4_counterexample :
    stripMdSlug "amd.md" = ".md" ∧
    (mainRun trivE fsAmd).2 = Except.ok () ∧
    Event.writeFile "dist/blog/.md/index.html" "# Hi" ∈ (mainRun trivE fsAmd).1 ∧
    ((mainRun trivE fsAmd).1.all
      (fun e => !(writesTo "dist/blog/amd/index.html" e))) = true := by
  refine ⟨rfl, rfl, ?_, rfl⟩
  decide

/-- C4 (amended): every non-dot post of a successful build is written
to `dist/blog/<slug>/index.html` where the slug is the filename with
the first case-insensitive occurrence of any character followed by
`md` removed (for ordinary names such as `a.md` and `b.md` this is the
filename minus the `.md` extension); in particular the two-file example
`a.md`, `b.md` with body `# Hi` produces `dist/blog/a/index.html` and
`dist/blog/b/index.html`, both containing the rendered `<h1>Hi</h1>`
fragment, whenever the external renderer substitutes the content and the
patch pass preserves it. -/
theorem c4_output_paths :
    (∀ (E : Externals) (fs : FS) (posts : List Obj),
      (generatePosts E fs).2 = Except.ok (some posts) →
      ∀ p ∈ fs.postsDir, startsWithDot p.name = false →
        ∃ c, Event.writeFile (resolveDist ["/blog/" ++ stripMdSlug p.name, "index.html"]) c
          ∈ (generatePosts E fs).1) ∧
    (∀ (E : Externals) (fs : FS) (ca ma cb mb : Nat),
      fs.postsDir = [⟨"a.md", "# Hi", ca, ma⟩, ⟨"b.md", "# Hi", cb, mb⟩] →
      E.matter "# Hi" = Except.ok ("# Hi", []) →
      E.markedParse "# Hi" = "<h1>Hi</h1>" →
      (∀ (md : Obj) (s : String), getKey md "content" = some (Value.str s) →
        ∃ out, E.renderString fs.postLayout md = Except.ok out ∧
          subOf s.data out.data = true) →
      (∀ (s sub : String), subOf sub.data s.data = true →
        subOf sub.data (E.patch s).data = true) →
      (∃ c₁, Event.writeFile "dist/blog/a/index.html" c₁ ∈ (generatePosts E fs).1 ∧
        subOf "<h1>Hi</h1>".data c₁.data = true) ∧
      (∃ c₂, Event.writeFile "dist/blog/b/index.html" c₂ ∈ (generatePosts E fs).1 ∧
        subOf "<h1>Hi</h1>".data c₂.data = true)) := by
  constructor
  · intro E fs posts hp p hpmem hnd
    obtain ⟨hloop, htr⟩ := generatePosts_ok hp
    obtain ⟨pairs, hf, -, he⟩ := postsLoop_spec E fs.postLayout fs.postsDir posts hloop
    have hpf : p ∈ fs.postsDir.filter (fun p => !(startsWithDot p.name)) :=
      List.mem_filter.mpr ⟨hpmem, by rw [hnd]; rfl⟩
    obtain ⟨pr, hprmem, hbp⟩ := forall₂_mem_left hf p hpf
    obtain ⟨out, md⟩ := pr
    obtain ⟨content, data, compiled, -, -, -, ho⟩ := buildPost_ok_elim hbp
    refine ⟨out.contents, ?_⟩
    rw [htr, he]
    have : Event.writeFile out.path out.contents ∈
        pairs.map (fun pr => Event.writeFile pr.1.path pr.1.contents) :=
      List.mem_map.mpr ⟨(out, md), hprmem, rfl⟩
    rw [ho] at this ⊢
    exact this
  · intro E fs ca ma cb mb hfs hmat hmark hrender hpatch
    have hmHi : processMarkdown E "# Hi" = Except.ok ("<h1>Hi</h1>", []) := by
      unfold processMarkdown
      rw [hmat]
      simp only [Except.map]
      rw [hmark]
    obtain ⟨sA, hrA, hsubA⟩ := hrender (mkMetadata [] ca ma "<h1>Hi</h1>" "/blog/a")
      "<h1>Hi</h1>" (getKey_mkMetadata_content _ _ _ _ _)
    obtain ⟨sB, hrB, hsubB⟩ := hrender (mkMetadata [] cb mb "<h1>Hi</h1>" "/blog/b")
      "<h1>Hi</h1>" (getKey_mkMetadata_content _ _ _ _ _)
    have hbA : buildPost E fs.postLayout ⟨"a.md", "# Hi", ca, ma⟩ =
        Except.ok (⟨"dist/blog/a/index.html", E.patch sA⟩,
          mkMetadata [] ca ma "<h1>Hi</h1>" "/blog/a") :=
      buildPost_ok_intro E fs.postLayout ⟨"a.md", "# Hi", ca, ma⟩ hmHi hrA
    have hbB : buildPost E fs.postLayout ⟨"b.md", "# Hi", cb, mb⟩ =
        Except.ok (⟨"dist/blog/b/index.html", E.patch sB⟩,
          mkMetadata [] cb mb "<h1>Hi</h1>" "/blog/b") :=
      buildPost_ok_intro E fs.postLayout ⟨"b.md", "# Hi", cb, mb⟩ hmHi hrB
    have htrace : (generatePosts E fs).1 = (postsLoop E fs.postLayout fs.postsDir).1 := by
      unfold generatePosts
      rw [hfs]
      rfl
    rw [htrace, hfs]
    rw [postsLoop_cons_ok (by intro hc; cases hc) hbA,
      postsLoop_cons_ok (by intro hc; cases hc) hbB]
    constructor
    · exact ⟨E.patch sA, List.mem_cons_self _ _, hpatch _ _ hsubA⟩
    · exact ⟨E.patch sB, List.mem_cons_of_mem _ (List.mem_cons_self _ _), hpatch _ _ hsubB⟩

/-- Witness for C4 (amended): both parts instantiated on the two-post
tree under externals knowing the worked example. -/
theorem c4_witness :
    (∃ c, Event.writeFile
        (resolveDist ["/blog/" ++ stripMdSlug "a.md", "index.html"]) c
        ∈ (generatePosts trivE fsTwoPosts).1) ∧
    (∃ c₁, Event.writeFile "dist/blog/a/index.html" c₁ ∈ (generatePosts h1E fsTwoPosts).1 ∧
      subOf "<h1>Hi</h1>".data c₁.data = true) ∧
    (∃ c₂, Event.writeFile "dist/blog/b/index.html" c₂ ∈ (generatePosts h1E fsTwoPosts).1 ∧
      subOf "<h1>Hi</h1>".data c₂.data = true) :=
  ⟨c4_output_paths.1 trivE fsTwoPosts twoPostsMeta rfl ⟨"a.md", "# Hi", 0, 1⟩
      (List.mem_cons_self _ _) rfl,
   c4_output_paths.2 h1E fsTwoPosts 0 1 2 3 rfl rfl rfl
     (fun md s h => ⟨s,
       by show contentRender fsTwoPosts.postLayout md = Except.ok s
          unfold contentRender
          rw [h],
       subOf_refl _⟩)
     (fun s sub h => h)⟩

/-- C5: the posts sequence of a successful build holds exactly one
entry per successfully built post, in directory-listing order
(an order-preserving one-to-one correspondence with the non-dot
entries of the listing), and that exact sequence is injected as the
`posts` variable into the metadata of every page render. -/
theorem c5_posts_sequence (E : Externals) (fs : FS) (posts : List Obj)
    (pages : List String)
    (hp : (generatePosts E fs).2 = Except.ok (some posts))
    (hg : (generateRoutes E fs posts).2 = Except.ok (some pages)) :
    (∃ pairs : List (PostOutput × Obj),
      List.Forall₂ (fun p pr => buildPost E fs.postLayout p = Except.ok pr)
        (filteredPosts fs) pairs ∧ posts = pairs.map Prod.snd) ∧
    ∀ pg ∈ fs.pagesDir, startsWithDot pg.name = false →
      ∃ s, E.renderString pg.text (pageMeta posts) = Except.ok s ∧
        Event.writeFile (resolveDist ["/" ++ stripPageSlug pg.name, "index.html"])
          (E.patch s) ∈ (generateRoutes E fs posts).1 := by
  obtain ⟨hloop, -⟩ := generatePosts_ok hp
  obtain ⟨pairs, hf, hpm, -⟩ := postsLoop_spec E fs.postLayout fs.postsDir posts hloop
  refine ⟨⟨pairs, hf, hpm⟩, ?_⟩
  intro pg hpg hnd
  obtain ⟨hploop, htr⟩ := generateRoutes_ok hg
  obtain ⟨out, hbo, hmem⟩ := pagesLoop_writes E posts fs.pagesDir pages hploop pg hpg hnd
  obtain ⟨s, hr, ho⟩ := buildPage_ok_elim hbo
  refine ⟨s, hr, ?_⟩
  rw [htr]
  rw [ho] at hmem
  exact hmem

/-- Witness for C5: the two-post build under `trivE`, with the `posts`
sequence and the one page both concrete. -/
theorem c5_witness :
    ((∃ pairs : List (PostOutput × Obj),
      List.Forall₂ (fun p pr => buildPost trivE fsTwoPosts.postLayout p = Except.ok pr)
        (filteredPosts fsTwoPosts) pairs ∧ twoPostsMeta = pairs.map Prod.snd) ∧
    ∀ pg ∈ fsTwoPosts.pagesDir, startsWithDot pg.name = false →
      ∃ s, trivE.renderString pg.text (pageMeta twoPostsMeta) = Except.ok s ∧
        Event.writeFile (resolveDist ["/" ++ stripPageSlug pg.name, "index.html"])
          (trivE.patch s) ∈ (generateRoutes trivE fsTwoPosts twoPostsMeta).1) ∧
    twoPostsMeta.length = 2 :=
  ⟨c5_posts_sequence trivE fsTwoPosts twoPostsMeta ["PAGE"] rfl rfl, rfl⟩

/-- C6: on a successful run the stages execute in the strict order
clean tree, load config, register filters, create the dist folder,
initialize the highlighter, build posts, build pages, process and copy
assets (the trace is exactly that concatenation); and positionally, no
CSS asset transform ever occurs before every HTML post and page write. -/
theorem c6_stage_order (E : Externals) (fs : FS) (posts : List Obj)
    (pages : List String)
    (hp : (generatePosts E fs).2 = Except.ok (some posts))
    (hg : (generateRoutes E fs posts).2 = Except.ok (some pages)) :
    (mainRun E fs).1 =
      mainPrefixEvents fs ++ (generatePosts E fs).1 ++ (generateRoutes E fs posts).1
        ++ processAndCopyAssets E fs ∧
    (mainRun E fs).2 = Except.ok () ∧
    ∀ (i j : Nat) (hi : i < (mainRun E fs).1.length) (hj : j < (mainRun E fs).1.length),
      isCssEvent ((mainRun E fs).1.get ⟨i, hi⟩) = true →
      isHtmlWrite ((mainRun E fs).1.get ⟨j, hj⟩) = true → j < i := by
  have htr : mainRun E fs =
      (mainPrefixEvents fs ++ (generatePosts E fs).1 ++ (generateRoutes E fs posts).1
        ++ processAndCopyAssets E fs, Except.ok ()) := by
    simp only [mainRun, hp, hg]
  have hA : ∀ e ∈ mainPrefixEvents fs ++ (generatePosts E fs).1
      ++ (generateRoutes E fs posts).1, isCssEvent e = false := by
    intro e he
    rcases List.mem_append.mp he with he2 | he2
    · rcases List.mem_append.mp he2 with he3 | he3
      · exact (mainPrefix_shape fs e he3).1
      · exact isHtmlWrite_not_css (generatePosts_events_write E fs e he3)
    · exact isHtmlWrite_not_css (generateRoutes_events_write E fs posts e he2)
  have hB : ∀ e ∈ processAndCopyAssets E fs, isHtmlWrite e = false := by
    intro e he
    exact assetsLoop_no_html E _ e he
  refine ⟨by rw [htr], by rw [htr], ?_⟩
  intro i j
  rw [htr]
  exact append_css_after_html hA hB i j

/-- Witness for C6: the two-post, one-page, one-CSS-asset build under
`trivE`. -/
theorem c6_witness :
    (mainRun trivE fsTwoPosts).1 =
      mainPrefixEvents fsTwoPosts ++ (generatePosts trivE fsTwoPosts).1
        ++ (generateRoutes trivE fsTwoPosts twoPostsMeta).1
        ++ processAndCopyAssets trivE fsTwoPosts ∧
    (mainRun trivE fsTwoPosts).2 = Except.ok () ∧
    ∀ (i j : Nat) (hi : i < (mainRun trivE fsTwoPosts).1.length)
      (hj : j < (mainRun trivE fsTwoPosts).1.length),
      isCssEvent ((mainRun trivE fsTwoPosts).1.get ⟨i, hi⟩) = true →
      isHtmlWrite ((mainRun trivE fsTwoPosts).1.get ⟨j, hj⟩) = true → j < i :=
  c6_stage_order trivE fsTwoPosts twoPostsMeta ["PAGE"] rfl rfl

/-- C7 (code bug): `processJSFiles` wraps `terser.minify(js).code`
without ever inspecting the `error` field of the terser result, so a
syntax-errored `.js` asset does NOT fail with an AssetError — the
promise resolves with `undefined`, the un-awaited `outputFile` is
handed `undefined` content, and the build run completes successfully;
assets of other extensions are indeed unaffected (the image is still
copied). -/
theorem c7_js_error_swallowed :
    processJSFiles jsFailE "var (" = none ∧
    (jsFailE.terserMinify "var (").error = some "SyntaxError: unexpected token" ∧
    processAndCopyAssets jsFailE fsJsBad =
      [Event.processJs "assets/app.js",
       Event.writeAsset "dist/assets/app.js" none,
       Event.copyAsset "assets/img.png"] ∧
    (mainRun jsFailE fsJsBad).2 = Except.ok () :=
  ⟨rfl, rfl, rfl, rfl⟩

/-- C8: the content pipeline is deterministic in the raw text — equal
texts parse and render identically — and a rebuilt post whose file
stats changed differs from the original only through the
timestamp-derived metadata keys: same output path, same metadata off
`createdAt`/`updatedAt`, and byte-identical output contents whenever
the template renderer does not depend on the timestamp keys. -/
theorem c8_deterministic (E : Externals) (layout : String) (p₁ p₂ : PostFile)
    (out₁ out₂ : PostOutput) (md₁ md₂ : Obj)
    (hn : p₁.name = p₂.name) (ht : p₁.text = p₂.text)
    (h₁ : buildPost E layout p₁ = Except.ok (out₁, md₁))
    (h₂ : buildPost E layout p₂ = Except.ok (out₂, md₂)) :
    processMarkdown E p₁.text = processMarkdown E p₂.text ∧
    out₁.path = out₂.path ∧
    (∀ k, k ≠ "createdAt" → k ≠ "updatedAt" → getKey md₁ k = getKey md₂ k) ∧
    ((∀ (l : String) (m₁ m₂ : Obj),
        (∀ k, k ≠ "createdAt" → k ≠ "updatedAt" → getKey m₁ k = getKey m₂ k) →
        E.renderString l m₁ = E.renderString l m₂) →
      out₁.contents = out₂.contents) := by
  obtain ⟨c₁, d₁, s₁, hm₁, hmd₁, hr₁, ho₁⟩ := buildPost_ok_elim h₁
  obtain ⟨c₂, d₂, s₂, hm₂, hmd₂, hr₂, ho₂⟩ := buildPost_ok_elim h₂
  have hpm : processMarkdown E p₁.text = processMarkdown E p₂.text := by rw [ht]
  have hcd : c₁ = c₂ ∧ d₁ = d₂ := by
    have := hm₁
    rw [hpm, hm₂] at this
    simp only [Except.ok.injEq, Prod.mk.injEq] at this
    exact ⟨this.1.symm, this.2.symm⟩
  obtain ⟨hc, hd⟩ := hcd
  subst hc
  subst hd
  have hkeys : ∀ k, k ≠ "createdAt" → k ≠ "updatedAt" → getKey md₁ k = getKey md₂ k := by
    intro k hk1 hk2
    subst hmd₁
    subst hmd₂
    by_cases hk3 : k = "content"
    · subst hk3
      rw [getKey_mkMetadata_content, getKey_mkMetadata_content]
    · by_cases hk4 : k = "url"
      · subst hk4
        rw [getKey_mkMetadata_url, getKey_mkMetadata_url, hn]
      · rw [getKey_mkMetadata_other _ _ _ _ _ _ hk1 hk2 hk3 hk4,
          getKey_mkMetadata_other _ _ _ _ _ _ hk1 hk2 hk3 hk4]
  refine ⟨hpm, ?_, hkeys, ?_⟩
  · rw [ho₁, ho₂, hn]
  · intro hindep
    have hrr : E.renderString layout md₁ = E.renderString layout md₂ :=
      hindep layout md₁ md₂ hkeys
    have hs : s₁ = s₂ := by
      have h := hr₁
      rw [hrr, hr₂] at h
      simp only [Except.ok.injEq] at h
      exact h.symm
    rw [ho₁, ho₂, hs]

/-- Witness for C8: the same post file re-examined with different
stats under `trivE`. -/
theorem c8_witness :
    processMarkdown trivE statPostA.text = processMarkdown trivE statPostB.text ∧
    (⟨"dist/blog/p/index.html", "hi"⟩ : PostOutput).path =
      (⟨"dist/blog/p/index.html", "hi"⟩ : PostOutput).path ∧
    (∀ k, k ≠ "createdAt" → k ≠ "updatedAt" →
      getKey (mkMetadata [] 0 0 "hi" "/blog/p") k =
      getKey (mkMetadata [] 10 20 "hi" "/blog/p") k) ∧
    ((∀ (l : String) (m₁ m₂ : Obj),
        (∀ k, k ≠ "createdAt" → k ≠ "updatedAt" → getKey m₁ k = getKey m₂ k) →
        trivE.renderString l m₁ = trivE.renderString l m₂) →
      (⟨"dist/blog/p/index.html", "hi"⟩ : PostOutput).contents =
      (⟨"dist/blog/p/index.html", "hi"⟩ : PostOutput).contents) :=
  c8_deterministic trivE "LAYOUT" statPostA statPostB
    ⟨"dist/blog/p/index.html", "hi"⟩ ⟨"dist/blog/p/index.html", "hi"⟩
    (mkMetadata [] 0 0 "hi" "/blog/p") (mkMetadata [] 10 20 "hi" "/blog/p")
    rfl rfl rfl rfl

end SBG
